import Mathlib

/-!
Verification of the `rust-racecar` Content Archive (CAR) decoder.

The development shallowly embeds the decoding engine of `src/src/lib.rs`
(and the duplicated module copies in `src/src/v1.rs`, `src/src/v2.rs`).
Byte streams are modelled as `List Nat` of the not-yet-consumed bytes;
every reading operation returns the value read together with the
remaining stream.  Fallible Rust functions returning `CarResult<T>`
become `Except CarError T`.

External crates (`unsigned_varint`, `byteorder`) are embedded from their
observable behaviour byte for byte; the content-identifier codec and the
hash functions (`cid`, `libipld` crates) are opaque external capabilities
bundled in the `ExtCaps` structure, and the dag-cbor map decoder is a
function parameter `dec`, exactly as the specification scopes them.
-/

/-- Errors of `unsigned_varint::io::read_u64`: `Io(UnexpectedEof)` when the
stream ends before a terminating byte, and the decode errors (`NotMinimal`
for a trailing zero byte, `Overflow` when ten continuation bytes appear). -/
inductive VarintErr where
  | eof
  | notMinimal
  | overflow
deriving DecidableEq

/-- Embeds the `CarError` enum of src/src/lib.rs.  `io` covers the wrapped
`std::io` errors (short `read_exact`, i.e. truncation), `ipld` the dag-cbor
decode failures, `cidError` the `cid::Error` from `Cid::read_bytes`, and
`contentMismatch` the `libipld` error produced when `Block::new` rejects a
payload whose hash does not match the identifier. -/
inductive CarError where
  | unsupportedVersion (n : Nat)
  | invalidFormat
  | ipld
  | io
  | cidError
  | varint (e : VarintErr)
  | contentMismatch
deriving DecidableEq

/-- Modelled from the spec: a content identifier is "a self-describing value
encoding a version tag, a content-type tag, and a multihash digest"; the
decoder core only ever consults the multihash header (hash-algorithm code)
and the embedded digest, so only those two fields are modelled. -/
structure Cid where
  hashAlg : Nat
  digest : List Nat
deriving DecidableEq

/-- A block of a Content Archive: a content identifier plus the owned
payload bytes (`Block<DefaultParams>` of the `libipld` crate). -/
structure Block where
  cid : Cid
  payload : List Nat
deriving DecidableEq

/-- Modelled from the spec: the generic self-describing structured data
("Ipld") produced by the external map decoder.  Only the shapes the decoder
core inspects are distinguished: integers, lists, content-identifier links
and string-keyed maps; everything else is `other`. -/
inductive Ipld where
  | integer (n : Int)
  | list (xs : List Ipld)
  | link (c : Cid)
  | map (kvs : List (String × Ipld))
  | other

/-- Modelled from the spec: `Ipld::get(key)` of the `libipld` crate — keyed
lookup in a map, an error when the key is absent or the value is not a map. -/
def Ipld.get (m : Ipld) (k : String) : Except Unit Ipld :=
  match m with
  | .map kvs =>
    match kvs.lookup k with
    | some v => .ok v
    | none => .error ()
  | _ => .error ()

/-- Modelled from the spec: the external capabilities the decoder core
depends on — "parse/construct a self-describing content identifier" and
"compute a named hash function over bytes".  `readCid` embeds
`Cid::read_bytes` over a cursor positioned at the start of a record buffer:
on success it yields the parsed identifier and the number of bytes it
consumed (the cursor position afterwards); `none` is a parse failure.
`hash` computes the digest of a byte string under a hash-algorithm code. -/
structure ExtCaps where
  hash : Nat → List Nat → List Nat
  readCid : List Nat → Option (Cid × Nat)

/-- Modelled from the spec: `Block::new` of the `libipld` crate is the
validation gate — "this construction must validate that hashing the payload
with the algorithm named in the identifier's multihash header yields a
digest equal to the digest embedded in the identifier", failing with the
content-mismatch error otherwise. -/
def Block.new (ext : ExtCaps) (cid : Cid) (payload : List Nat) : Except CarError Block :=
  if ext.hash cid.hashAlg payload = cid.digest then
    .ok { cid := cid, payload := payload }
  else
    .error .contentMismatch

/-- The byte-consuming loop of `unsigned_varint::io::read_u64`: read one
byte per iteration (up to ten); a byte with the high bit clear terminates
and yields the accumulated little-endian base-128 value (truncated to 64
bits exactly as the crate's `k << (i * 7)` does), a terminating zero byte
after the first position is rejected as non-minimal, and a tenth byte that
still carries the continuation bit is an overflow. -/
def varintGo : List Nat → Nat → Nat → Except VarintErr (Nat × List Nat)
  | [], _, _ => .error .eof
  | b :: rest, i, acc =>
    if b < 128 then
      if b = 0 ∧ 0 < i then .error .notMinimal
      else .ok ((acc + b * 2 ^ (7 * i)) % 2 ^ 64, rest)
    else if i = 9 then .error .overflow
    else varintGo rest (i + 1) (acc + (b - 128) * 2 ^ (7 * i))

/-- Embeds `unsigned_varint::io::read_u64`, the varint reader used for every
length prefix and codec selector. -/
def varint_read_u64 (r : List Nat) : Except VarintErr (Nat × List Nat) :=
  varintGo r 0 0

/-- Embeds `std::io::Read::read_exact` into a fresh buffer of length `n`
over a cursor: succeeds with the buffer and the remaining stream exactly
when at least `n` bytes remain, and fails with the unexpected-eof I/O error
otherwise. -/
def readExact (r : List Nat) (n : Nat) : Except CarError (List Nat × List Nat) :=
  if n ≤ r.length then .ok (r.take n, r.drop n) else .error .io

/-- Embeds `byteorder::LittleEndian::read_u64`: the little-endian value of
an 8-byte slice. -/
def read_u64_le (bs : List Nat) : Nat :=
  bs.foldr (fun b acc => b + 256 * acc) 0

/-- A successful varint read consumes at least one byte of the stream. -/
theorem varintGo_length_lt :
    ∀ (r : List Nat) (i acc n : Nat) (r' : List Nat),
      varintGo r i acc = .ok (n, r') → r'.length < r.length := by
  intro r
  induction r with
  | nil => intro i acc n r' h; simp [varintGo] at h
  | cons b rest ih =>
    intro i acc n r' h
    unfold varintGo at h
    by_cases hb : b < 128
    · simp only [hb, if_true] at h
      by_cases hz : b = 0 ∧ 0 < i
      · simp [hz] at h
      · simp only [hz, if_false] at h
        cases h
        simp
    · simp only [hb, if_false] at h
      by_cases hi : i = 9
      · simp [hi] at h
      · simp only [hi, if_false] at h
        exact Nat.lt_trans (ih _ _ _ _ h) (Nat.lt_succ_self _)

/-- Inversion for a successful `readExact`. -/
theorem readExact_ok {r : List Nat} {n : Nat} {buf r' : List Nat}
    (h : readExact r n = .ok (buf, r')) :
    n ≤ r.length ∧ buf = r.take n ∧ r' = r.drop n := by
  unfold readExact at h
  by_cases hn : n ≤ r.length
  · simp only [hn, if_true] at h
    cases h
    exact ⟨hn, rfl, rfl⟩
  · simp [hn] at h

/-- Embeds `CarHeaderV1` of src/src/lib.rs: the list of root identifiers. -/
structure CarHeaderV1 where
  roots : List Cid
deriving DecidableEq

/-- Embeds `CarHeaderV2` of src/src/lib.rs: the 16-byte characteristics
bit-field and the three little-endian 64-bit offsets/size. -/
structure CarHeaderV2 where
  characteristics : List Nat
  data_offset : Nat
  data_size : Nat
  index_offset : Nat
deriving DecidableEq

/-- Embeds the `CarHeader` enum of src/src/lib.rs. -/
inductive CarHeader where
  | v1 (h : CarHeaderV1)
  | v2 (h : CarHeaderV2)
deriving DecidableEq

/-- Embeds `CarV1` of src/src/lib.rs: a header plus the ordered blocks. -/
structure CarV1 where
  header : CarHeaderV1
  blocks : List Block
deriving DecidableEq

/-- Embeds the (field-less, placeholder) `CarV2Index` of src/src/lib.rs. -/
structure CarV2Index where
deriving DecidableEq

/-- Embeds `CarV2` of src/src/lib.rs: the fixed header, the wrapped V1
archive and the optional index. -/
structure CarV2 where
  header : CarHeaderV2
  car_v1 : CarV1
  index : Option CarV2Index
deriving DecidableEq

/-- Embeds the `ContentArchive` enum of src/src/lib.rs. -/
inductive ContentArchive where
  | v1 (c : CarV1)
  | v2 (c : CarV2)
deriving DecidableEq

/-- Embeds `CarV2::is_fully_indexed` of src/src/lib.rs (identically
duplicated in src/src/v2.rs): `self.header.characteristics[0] &
0b1000_0000 == 1`. -/
def CarV2.is_fully_indexed (self : CarV2) : Bool :=
  self.header.characteristics.getD 0 0 &&& 128 == 1

/-- Embeds `parse_v1_header` of src/src/lib.rs: the `roots` field must be a
list of links; collecting short-circuits at the first non-link element. -/
def parse_v1_header (header_map : Ipld) : Except CarError CarHeaderV1 :=
  match header_map.get ("roots") with
  | .ok (.list cids) =>
    match cids.mapM (fun ipld =>
        match ipld with
        | .link link => Except.ok link
        | _ => Except.error CarError.invalidFormat) with
    | .ok roots => .ok { roots := roots }
    | .error e => .error e
  | _ => .error .invalidFormat

/-- Embeds `parse_v2_header` of src/src/lib.rs (identically duplicated in
src/src/v2.rs): slice the 40-byte buffer into the 16-byte characteristics
and three little-endian `u64` fields. -/
def parse_v2_header (header : List Nat) : Except CarError CarHeaderV2 :=
  .ok { characteristics := header.take 16
        data_offset := read_u64_le ((header.drop 16).take 8)
        data_size := read_u64_le ((header.drop 24).take 8)
        index_offset := read_u64_le ((header.drop 32).take 8) }

/-- Embeds `read_header` of src/src/lib.rs: frame the envelope, decode it
with the external dag-cbor decoder `dec`, dispatch on the integer `version`
field (any other shape is `InvalidFormat`); version 2 additionally reads the
40-byte fixed header; any other version is `UnsupportedVersion(version as
u8)` — the Rust `as u8` cast truncates the `i128` to its low 8 bits. -/
def read_header (dec : List Nat → Except Unit Ipld) (r : List Nat) :
    Except CarError (CarHeader × List Nat) :=
  match varint_read_u64 r with
  | .error e => .error (.varint e)
  | .ok (header_length, r1) =>
    match readExact r1 header_length with
    | .error e => .error e
    | .ok (header_buf, r2) =>
      match dec header_buf with
      | .error _ => .error .ipld
      | .ok header_map =>
        match header_map.get ("version") with
        | .ok (.integer version) =>
          if version = 1 then
            match parse_v1_header header_map with
            | .error e => .error e
            | .ok h => .ok (.v1 h, r2)
          else if version = 2 then
            match readExact r2 40 with
            | .error e => .error e
            | .ok (v2_header_buf, r3) =>
              match parse_v2_header v2_header_buf with
              | .error e => .error e
              | .ok h => .ok (.v2 h, r3)
          else .error (.unsupportedVersion (version % 256).toNat)
        | _ => .error .invalidFormat

/-- Embeds `read_car_v1_data` of src/src/lib.rs: the block-stream loop.
`while let Ok(length) = varint_read_u64(&mut r)` exits the loop without
error on ANY varint failure; inside the loop the record buffer is framed,
a content identifier is parsed off its front, the rest of the record is the
payload, and `Block::new` validates the pair. -/
def read_car_v1_data (ext : ExtCaps) (r : List Nat) : Except CarError (List Block) :=
  match hv : varint_read_u64 r with
  | .error _ => .ok []
  | .ok (length, r1) =>
    match he : readExact r1 length with
    | .error e => .error e
    | .ok (data_buf, r2) =>
      match ext.readCid data_buf with
      | none => .error .cidError
      | some (cid, pos) =>
        match Block.new ext cid (data_buf.drop pos) with
        | .error e => .error e
        | .ok block =>
          match read_car_v1_data ext r2 with
          | .error e => .error e
          | .ok rest => .ok (block :: rest)
termination_by r.length
decreasing_by
  have h1 : r1.length < r.length := varintGo_length_lt r 0 0 length r1 hv
  have h2 := readExact_ok he
  calc r2.length = (r1.drop length).length := by rw [h2.2.2]
    _ ≤ r1.length := by simp
    _ < r.length := h1

/-- Embeds `read_car_v1_data` of src/src/v1.rs — the second, textually
identical copy of the block-stream loop, used by `CarV1::from_reader`. -/
def v1_read_car_v1_data (ext : ExtCaps) (r : List Nat) : Except CarError (List Block) :=
  match hv : varint_read_u64 r with
  | .error _ => .ok []
  | .ok (length, r1) =>
    match he : readExact r1 length with
    | .error e => .error e
    | .ok (data_buf, r2) =>
      match ext.readCid data_buf with
      | none => .error .cidError
      | some (cid, pos) =>
        match Block.new ext cid (data_buf.drop pos) with
        | .error e => .error e
        | .ok block =>
          match v1_read_car_v1_data ext r2 with
          | .error e => .error e
          | .ok rest => .ok (block :: rest)
termination_by r.length
decreasing_by
  have h1 : r1.length < r.length := varintGo_length_lt r 0 0 length r1 hv
  have h2 := readExact_ok he
  calc r2.length = (r1.drop length).length := by rw [h2.2.2]
    _ ≤ r1.length := by simp
    _ < r.length := h1

/-- Embeds `read_v2_index` of src/src/lib.rs: offset `0` is the "no index"
sentinel; otherwise seek to the absolute offset, read the codec-selector
varint (whose failure propagates as a `VarintDecode` error), and return a
present-but-opaque index whatever the selector value is — the match arms
for `0x0400`, `0x0401` and the catch-all are all empty. -/
def read_v2_index (data : List Nat) (index_offset : Nat) :
    Except CarError (Option CarV2Index) :=
  if index_offset = 0 then .ok none
  else
    match varint_read_u64 (data.drop index_offset) with
    | .error e => .error (.varint e)
    | .ok (codec, _) =>
      match codec with
      | 0x0400 => .ok (some {})
      | 0x0401 => .ok (some {})
      | _ => .ok (some {})

/-- Embeds the `TryFrom<ContentArchive> for CarV1` impl of src/src/lib.rs:
only the `V1` variant converts; anything else is `InvalidFormat`. -/
def CarV1.try_from : ContentArchive → Except CarError CarV1
  | .v1 car => .ok car
  | _ => .error .invalidFormat

/-- Embeds `ContentArchive::read_bytes` of src/src/lib.rs.  The stream is
the full byte list `data` with the cursor at position 0 (seeks are absolute,
so `data.drop k` is the stream after `seek(Start(k))`).  For version 2 the
data window `[data_offset, data_offset+data_size)` is copied into an
isolated buffer and decoded recursively, the result must convert to a V1
archive, and the index is read from the original stream.  The Rust
recursion is unbounded (a window that contains the whole stream recurses
forever), so the embedding carries a fuel parameter: `none` means the fuel
ran out, i.e. the Rust code would still be recursing at that depth. -/
def ContentArchive.read_bytes (dec : List Nat → Except Unit Ipld) (ext : ExtCaps) :
    Nat → List Nat → Option (Except CarError ContentArchive)
  | 0, _ => none
  | fuel + 1, data =>
    match read_header dec data with
    | .error e => some (.error e)
    | .ok (.v1 header, rest) =>
      match read_car_v1_data ext rest with
      | .error e => some (.error e)
      | .ok blocks => some (.ok (.v1 { header := header, blocks := blocks }))
    | .ok (.v2 header, _) =>
      if header.data_size ≤ (data.drop header.data_offset).length then
        let car_v1_buf := (data.drop header.data_offset).take header.data_size
        match ContentArchive.read_bytes dec ext fuel car_v1_buf with
        | none => none
        | some (.error e) => some (.error e)
        | some (.ok inner) =>
          match CarV1.try_from inner with
          | .error e => some (.error e)
          | .ok car1 =>
            match read_v2_index data header.index_offset with
            | .error e => some (.error e)
            | .ok index =>
              some (.ok (.v2 { header := header, car_v1 := car1, index := index }))
      else some (.error .io)

/-- The blocks a successful decode returns: those of the archive on the V1
path, those of the embedded V1 archive on the V2 path. -/
def ContentArchive.blocks : ContentArchive → List Block
  | .v1 c => c.blocks
  | .v2 c => c.car_v1.blocks

/-- The standard LEB128-style encoding of an unsigned integer, used to
build well-formed input streams for the decoder theorems: seven value bits
per byte, least significant first, continuation signalled by the high bit. -/
def varintEncode (n : Nat) : List Nat :=
  if h : n < 128 then [n] else (n % 128 + 128) :: varintEncode (n / 128)
termination_by n
decreasing_by
  exact Nat.div_lt_self (by omega) (by omega)

/-- Decoding an encoded varint from position `i` of the ten-byte window
yields exactly the encoded value, consuming exactly the encoding. -/
theorem varintGo_encode (rest : List Nat) :
    ∀ (n i acc : Nat), (n ≠ 0 ∨ i = 0) → n < 2 ^ (7 * (10 - i)) →
      acc + n * 2 ^ (7 * i) < 2 ^ 64 →
      varintGo (varintEncode n ++ rest) i acc = .ok (acc + n * 2 ^ (7 * i), rest) := by
  intro n
  induction n using Nat.strong_induction_on with
  | _ n ih =>
    intro i acc hni hfit hbound
    by_cases h : n < 128
    · rw [varintEncode, dif_pos h]
      show varintGo (n :: rest) i acc = _
      unfold varintGo
      rw [if_pos h]
      have hz : ¬(n = 0 ∧ 0 < i) := by
        rcases hni with h0 | h0
        · exact fun hc => h0 hc.1
        · omega
      rw [if_neg hz]
      rw [Nat.mod_eq_of_lt hbound]
    · rw [varintEncode, dif_neg h]
      show varintGo ((n % 128 + 128) :: (varintEncode (n / 128) ++ rest)) i acc = _
      unfold varintGo
      have hb : ¬(n % 128 + 128 < 128) := by omega
      rw [if_neg hb]
      have hi9 : i ≤ 9 := by
        by_contra hgt
        have : 7 * (10 - i) = 0 := by omega
        rw [this] at hfit
        omega
      have hine : i ≠ 9 := by
        intro hic
        rw [hic] at hfit
        norm_num at hfit
        omega
      rw [if_neg hine]
      have hrec := ih (n / 128) (Nat.div_lt_self (by omega) (by omega)) (i + 1)
        (acc + (n % 128 + 128 - 128) * 2 ^ (7 * i))
      have harith : acc + (n % 128 + 128 - 128) * 2 ^ (7 * i) + n / 128 * 2 ^ (7 * (i + 1))
          = acc + n * 2 ^ (7 * i) := by
        have hsplit : n % 128 + 128 * (n / 128) = n := Nat.mod_add_div n 128
        have hpow : 2 ^ (7 * (i + 1)) = 2 ^ (7 * i) * 128 := by
          rw [show 7 * (i + 1) = 7 * i + 7 by ring, pow_add]
          norm_num
        have hsub : n % 128 + 128 - 128 = n % 128 := by omega
        rw [hsub, hpow]
        calc acc + n % 128 * 2 ^ (7 * i) + n / 128 * (2 ^ (7 * i) * 128)
            = acc + (n % 128 + 128 * (n / 128)) * 2 ^ (7 * i) := by ring
          _ = acc + n * 2 ^ (7 * i) := by rw [hsplit]
      rw [hrec ?_ ?_ ?_]
      · rw [harith]
      · left
        have : 128 ≤ n := by omega
        have := Nat.le_div_iff_mul_le (k := 128) (by omega) |>.mpr (by omega : 1 * 128 ≤ n)
        omega
      · have hle : 7 * (10 - (i + 1)) + 7 = 7 * (10 - i) := by omega
        have : n / 128 < 2 ^ (7 * (10 - (i + 1))) := by
          rw [Nat.div_lt_iff_lt_mul (by omega : (0:Nat) < 128)]
          calc n < 2 ^ (7 * (10 - i)) := hfit
            _ = 2 ^ (7 * (10 - (i + 1))) * 128 := by
              rw [← hle, pow_add]
              norm_num
        exact this
      · rw [harith]
        exact hbound

/-- Reading a varint from an encoded value followed by anything yields that
value and leaves exactly the rest of the stream. -/
theorem varint_read_encode {n : Nat} (rest : List Nat) (hn : n < 2 ^ 64) :
    varint_read_u64 (varintEncode n ++ rest) = .ok (n, rest) := by
  unfold varint_read_u64
  have := varintGo_encode rest n 0 0 (Or.inr rfl)
    (lt_trans hn (by norm_num)) (by simpa using hn)
  simpa using this

/-- One successful iteration of the block-stream loop of src/src/lib.rs:
framing, identifier parse and block validation all succeed, so the loop
conses the block onto the decode of the remaining stream. -/
theorem read_car_v1_data_cons (ext : ExtCaps) {r r1 data_buf r2 : List Nat}
    {length : Nat} {cid : Cid} {pos : Nat} {block : Block}
    (hv : varint_read_u64 r = .ok (length, r1))
    (he : readExact r1 length = .ok (data_buf, r2))
    (hc : ext.readCid data_buf = some (cid, pos))
    (hb : Block.new ext cid (data_buf.drop pos) = .ok block) :
    read_car_v1_data ext r = (read_car_v1_data ext r2).map (fun rest => block :: rest) := by
  rw [read_car_v1_data]
  repeat' split
  all_goals simp_all [Except.map]

/-- The loop of src/src/lib.rs stops without error as soon as the length
varint fails to read — whatever the failure is. -/
theorem read_car_v1_data_stop (ext : ExtCaps) {r : List Nat} {e : VarintErr}
    (hv : varint_read_u64 r = .error e) :
    read_car_v1_data ext r = .ok [] := by
  rw [read_car_v1_data]
  repeat' split
  all_goals simp_all

/-- A record whose framing reads fewer bytes than its length prefix
promises makes the loop of src/src/lib.rs fail with that read error. -/
theorem read_car_v1_data_truncated (ext : ExtCaps) {r r1 : List Nat}
    {length : Nat} {e : CarError}
    (hv : varint_read_u64 r = .ok (length, r1))
    (he : readExact r1 length = .error e) :
    read_car_v1_data ext r = .error e := by
  rw [read_car_v1_data]
  repeat' split
  all_goals simp_all

/-- A well-formed record as an input fragment for the decoder: its length
prefix followed by its bytes. -/
def encodeRecord (rec : List Nat) : List Nat :=
  varintEncode rec.length ++ rec

/-- A Version 1 block-stream body: the concatenation of its framed records. -/
def encodeBody (recs : List (List Nat)) : List Nat :=
  (recs.map encodeRecord).flatten

/-- The block a record should decode to: the identifier parsed off its
front and the remaining bytes as payload. -/
def blockOfRecord (ext : ExtCaps) (rec : List Nat) : Option Block :=
  match ext.readCid rec with
  | some (cid, pos) => some { cid := cid, payload := rec.drop pos }
  | none => none

/-- A record is well formed when its length is a representable prefix and
the payload behind its parseable identifier hashes to the identifier's
digest. -/
def WFRecord (ext : ExtCaps) (rec : List Nat) : Prop :=
  rec.length < 2 ^ 64 ∧
  match ext.readCid rec with
  | some (cid, pos) => ext.hash cid.hashAlg (rec.drop pos) = cid.digest
  | none => True

/-- Decoding a stream that starts with well-formed framed records prepends
exactly their blocks, in physical order, to the decode of the rest. -/
theorem read_car_v1_data_append (ext : ExtCaps) :
    ∀ (recs : List (List Nat)) (blocks : List Block) (tail : List Nat),
      (∀ rec ∈ recs, WFRecord ext rec) →
      recs.mapM (blockOfRecord ext) = some blocks →
      read_car_v1_data ext (encodeBody recs ++ tail) =
        (read_car_v1_data ext tail).map (fun bs => blocks ++ bs) := by
  intro recs
  induction recs with
  | nil =>
    intro blocks tail _ hm
    simp only [List.mapM_nil, Option.pure_def, Option.some.injEq] at hm
    subst hm
    simp only [encodeBody, List.map_nil, List.flatten_nil, List.nil_append]
    cases read_car_v1_data ext tail <;> simp [Except.map]
  | cons rec recs ih =>
    intro blocks tail hwf hm
    cases hcb : blockOfRecord ext rec with
    | none => rw [List.mapM_cons, hcb] at hm; simp at hm
    | some b =>
      cases hmm : recs.mapM (blockOfRecord ext) with
      | none => rw [List.mapM_cons, hcb, hmm] at hm; simp at hm
      | some bs =>
        rw [List.mapM_cons, hcb, hmm] at hm
        simp at hm
        obtain ⟨hlen, hhash⟩ := hwf rec (List.mem_cons_self rec recs)
        have hstream : encodeBody (rec :: recs) ++ tail
            = varintEncode rec.length ++ (rec ++ (encodeBody recs ++ tail)) := by
          simp [encodeBody, encodeRecord, List.append_assoc]
        rw [hstream]
        cases hcid : ext.readCid rec with
        | none => simp [blockOfRecord, hcid] at hcb
        | some cp =>
          obtain ⟨cid, pos⟩ := cp
          have hbval : b = { cid := cid, payload := rec.drop pos } := by
            simp only [blockOfRecord, hcid] at hcb
            exact (Option.some_inj.mp hcb).symm
          have hhash' : ext.hash cid.hashAlg (rec.drop pos) = cid.digest := by
            simpa [hcid] using hhash
          have hnew : Block.new ext cid (rec.drop pos) = .ok b := by
            rw [Block.new, if_pos hhash', hbval]
          have hv := varint_read_encode (rec ++ (encodeBody recs ++ tail)) hlen
          have he : readExact (rec ++ (encodeBody recs ++ tail)) rec.length
              = .ok (rec, encodeBody recs ++ tail) := by
            rw [readExact, if_pos (by simp)]
            rw [List.take_left, List.drop_left]
          rw [read_car_v1_data_cons ext hv he hcid hnew]
          rw [ih bs tail (fun x hx => hwf x (List.mem_cons_of_mem rec hx)) hmm]
          subst hm
          cases read_car_v1_data ext tail <;> simp [Except.map]

/-- An unparseable identifier inside a record makes the loop of
src/src/lib.rs fail with the identifier error. -/
theorem read_car_v1_data_cidError (ext : ExtCaps) {r r1 data_buf r2 : List Nat}
    {length : Nat}
    (hv : varint_read_u64 r = .ok (length, r1))
    (he : readExact r1 length = .ok (data_buf, r2))
    (hc : ext.readCid data_buf = none) :
    read_car_v1_data ext r = .error .cidError := by
  rw [read_car_v1_data]
  repeat' split
  all_goals simp_all

/-- A failing block construction makes the loop of src/src/lib.rs fail
with that error. -/
theorem read_car_v1_data_blockError (ext : ExtCaps) {r r1 data_buf r2 : List Nat}
    {length pos : Nat} {cid : Cid} {e : CarError}
    (hv : varint_read_u64 r = .ok (length, r1))
    (he : readExact r1 length = .ok (data_buf, r2))
    (hc : ext.readCid data_buf = some (cid, pos))
    (hb : Block.new ext cid (data_buf.drop pos) = .error e) :
    read_car_v1_data ext r = .error e := by
  rw [read_car_v1_data]
  repeat' split
  all_goals simp_all

/-- Mirror of `read_car_v1_data_stop` for the src/src/v1.rs copy. -/
theorem v1_read_car_v1_data_stop (ext : ExtCaps) {r : List Nat} {e : VarintErr}
    (hv : varint_read_u64 r = .error e) :
    v1_read_car_v1_data ext r = .ok [] := by
  rw [v1_read_car_v1_data]
  repeat' split
  all_goals simp_all

/-- Mirror of `read_car_v1_data_truncated` for the src/src/v1.rs copy. -/
theorem v1_read_car_v1_data_truncated (ext : ExtCaps) {r r1 : List Nat}
    {length : Nat} {e : CarError}
    (hv : varint_read_u64 r = .ok (length, r1))
    (he : readExact r1 length = .error e) :
    v1_read_car_v1_data ext r = .error e := by
  rw [v1_read_car_v1_data]
  repeat' split
  all_goals simp_all

/-- Mirror of `read_car_v1_data_cidError` for the src/src/v1.rs copy. -/
theorem v1_read_car_v1_data_cidError (ext : ExtCaps) {r r1 data_buf r2 : List Nat}
    {length : Nat}
    (hv : varint_read_u64 r = .ok (length, r1))
    (he : readExact r1 length = .ok (data_buf, r2))
    (hc : ext.readCid data_buf = none) :
    v1_read_car_v1_data ext r = .error .cidError := by
  rw [v1_read_car_v1_data]
  repeat' split
  all_goals simp_all

/-- Mirror of `read_car_v1_data_blockError` for the src/src/v1.rs copy. -/
theorem v1_read_car_v1_data_blockError (ext : ExtCaps) {r r1 data_buf r2 : List Nat}
    {length pos : Nat} {cid : Cid} {e : CarError}
    (hv : varint_read_u64 r = .ok (length, r1))
    (he : readExact r1 length = .ok (data_buf, r2))
    (hc : ext.readCid data_buf = some (cid, pos))
    (hb : Block.new ext cid (data_buf.drop pos) = .error e) :
    v1_read_car_v1_data ext r = .error e := by
  rw [v1_read_car_v1_data]
  repeat' split
  all_goals simp_all

/-- Mirror of `read_car_v1_data_cons` for the src/src/v1.rs copy. -/
theorem v1_read_car_v1_data_cons (ext : ExtCaps) {r r1 data_buf r2 : List Nat}
    {length : Nat} {cid : Cid} {pos : Nat} {block : Block}
    (hv : varint_read_u64 r = .ok (length, r1))
    (he : readExact r1 length = .ok (data_buf, r2))
    (hc : ext.readCid data_buf = some (cid, pos))
    (hb : Block.new ext cid (data_buf.drop pos) = .ok block) :
    v1_read_car_v1_data ext r
      = (v1_read_car_v1_data ext r2).map (fun rest => block :: rest) := by
  rw [v1_read_car_v1_data]
  repeat' split
  all_goals simp_all [Except.map]

/-- C10: the two copies of the block-stream decoder — `read_car_v1_data` in
src/src/lib.rs (used by `ContentArchive::read_bytes`) and `read_car_v1_data`
in src/src/v1.rs (used by `CarV1::from_reader`) — are extensionally equal:
on every input byte stream they return the same result. -/
theorem c10_block_stream_copies_extensionally_equal (ext : ExtCaps) (r : List Nat) :
    read_car_v1_data ext r = v1_read_car_v1_data ext r := by
  have main : ∀ (N : Nat) (s : List Nat), s.length ≤ N →
      read_car_v1_data ext s = v1_read_car_v1_data ext s := by
    intro N
    induction N with
    | zero =>
      intro s hs
      have hnil : s = [] := List.length_eq_zero.mp (Nat.le_zero.mp hs)
      subst hnil
      have hv : varint_read_u64 [] = .error .eof := rfl
      rw [read_car_v1_data_stop ext hv, v1_read_car_v1_data_stop ext hv]
    | succ N ih =>
      intro s hs
      cases hv : varint_read_u64 s with
      | error e =>
        rw [read_car_v1_data_stop ext hv, v1_read_car_v1_data_stop ext hv]
      | ok p =>
        obtain ⟨length, s1⟩ := p
        cases he : readExact s1 length with
        | error e =>
          rw [read_car_v1_data_truncated ext hv he,
            v1_read_car_v1_data_truncated ext hv he]
        | ok q =>
          obtain ⟨buf, s2⟩ := q
          have h1 : s1.length < s.length := varintGo_length_lt s 0 0 length s1 hv
          have h2 := readExact_ok he
          have hs2 : s2.length ≤ N := by
            have hle : s2.length ≤ s1.length := by rw [h2.2.2]; simp
            omega
          cases hc : ext.readCid buf with
          | none =>
            rw [read_car_v1_data_cidError ext hv he hc,
              v1_read_car_v1_data_cidError ext hv he hc]
          | some cp =>
            obtain ⟨cid, pos⟩ := cp
            cases hb : Block.new ext cid (buf.drop pos) with
            | error e =>
              rw [read_car_v1_data_blockError ext hv he hc hb,
                v1_read_car_v1_data_blockError ext hv he hc hb]
            | ok blk =>
              rw [read_car_v1_data_cons ext hv he hc hb,
                v1_read_car_v1_data_cons ext hv he hc hb, ih s2 hs2]
  exact main r.length r le_rfl

/-- Modelled from the spec: a concrete instance of the external dag-cbor
map decoder, used to build explicit inputs for witnesses and
counterexamples.  It decodes a header record to a map whose integer
`version` field is the sum of the record's bytes — the real decoder
produces such maps from suitable dag-cbor bytes — and whose `roots` field
is the empty list. -/
def toyDec (bs : List Nat) : Except Unit Ipld :=
  .ok (.map [("version", .integer (Int.ofNat bs.sum)), ("roots", .list [])])

/-- Modelled from the spec: a concrete instance of the external
content-identifier codec and hash capability, used for witnesses and
counterexamples.  The identifier is parsed from the first byte of a record
(consuming exactly one byte) with that byte as both algorithm code and
digest, and the toy hash of any payload under algorithm `a` is `[a]`, so
every nonempty record parses and validates. -/
def toyExt : ExtCaps where
  hash := fun alg _ => [alg]
  readCid := fun buf =>
    match buf with
    | b :: _ => some ({ hashAlg := b, digest := [b] }, 1)
    | [] => none

/-- C2: evaluating the Version 1 block-stream loop at its failing inputs.
The claim requires that only "zero bytes available at the start of the
length varint" ends the loop cleanly and that every other varint failure
propagates as an error; but `while let Ok(length) = varint_read_u64(..)`
swallows every varint failure, so a record whose length varint is truncated
mid-encoding (`[0x80]` then end of stream) and one whose varint encoding is
malformed (non-minimal `[0x80, 0x00]`) both decode "successfully" to zero
blocks instead of propagating an error. -/
theorem c2_varint_failures_swallowed :
    read_car_v1_data toyExt [128] = .ok []
    ∧ read_car_v1_data toyExt [128, 0] = .ok [] :=
  ⟨read_car_v1_data_stop toyExt rfl, read_car_v1_data_stop toyExt rfl⟩

/-- C3: evaluating `is_fully_indexed` at the failing input.  The code tests
`characteristics[0] & 0x80 == 1`, and a masked value is `0` or `0x80`, never
`1`: on a header whose characteristics byte 0 is `0x80` (high bit set, so
the claim requires `true`) it returns `false` — indeed it returns `false`
for every archive. -/
theorem c3_is_fully_indexed_never_true :
    CarV2.is_fully_indexed
      { header := { characteristics := 128 :: List.replicate 15 0,
                    data_offset := 0, data_size := 0, index_offset := 0 },
        car_v1 := { header := { roots := [] }, blocks := [] },
        index := none } = false
    ∧ ∀ car : CarV2, car.is_fully_indexed = false := by
  refine ⟨rfl, fun car => ?_⟩
  unfold CarV2.is_fully_indexed
  have h : car.header.characteristics.getD 0 0 &&& 128 ≠ 1 := by
    intro hc
    have := congrArg (fun n => Nat.testBit n 0) hc
    simp [Nat.testBit_and] at this
  simpa using h

/-- A successful decode of a V2 archive obtained its index component from
`read_v2_index` at the fixed header's `index_offset`. -/
theorem read_bytes_v2_inversion {dec : List Nat → Except Unit Ipld} {ext : ExtCaps}
    {fuel : Nat} {data : List Nat} {car : CarV2}
    (h : ContentArchive.read_bytes dec ext fuel data = some (.ok (.v2 car))) :
    read_v2_index data car.header.index_offset = .ok car.index := by
  cases fuel with
  | zero => simp [ContentArchive.read_bytes] at h
  | succ fuel =>
    rw [ContentArchive.read_bytes] at h
    repeat' split at h
    all_goals (try simp_all)
    all_goals (repeat' split at h)
    all_goals (try simp_all)
    all_goals (subst h; simp_all)

/-- `read_v2_index` succeeds with `none` exactly when the offset is the
zero sentinel. -/
theorem read_v2_index_none_iff {data : List Nat} {off : Nat} {v : Option CarV2Index}
    (h : read_v2_index data off = .ok v) : v = none ↔ off = 0 := by
  unfold read_v2_index at h
  by_cases h0 : off = 0
  · rw [if_pos h0] at h
    cases h
    simp [h0]
  · rw [if_neg h0] at h
    repeat' split at h
    all_goals (try simp_all)
    all_goals (subst h; simp)

/-- C7: for every successfully decoded Version 2 archive the index is
`None` iff the fixed header's `index_offset` is `0`; and for every nonzero
offset at which the codec-selector varint reads — whatever its value, one
of the recognized selectors `0x0400`/`0x0401` or not — the index reader
succeeds with `Some`, never decoding the selector's body. -/
theorem c7_index_sentinel :
    (∀ (dec : List Nat → Except Unit Ipld) (ext : ExtCaps) (fuel : Nat)
        (data : List Nat) (car : CarV2),
      ContentArchive.read_bytes dec ext fuel data = some (.ok (.v2 car)) →
      (car.index = none ↔ car.header.index_offset = 0))
    ∧ (∀ (data : List Nat) (off : Nat), off ≠ 0 →
        ∀ (codec : Nat) (rest : List Nat),
          varint_read_u64 (data.drop off) = .ok (codec, rest) →
          read_v2_index data off = .ok (some {})) := by
  constructor
  · intro dec ext fuel data car h
    exact read_v2_index_none_iff (read_bytes_v2_inversion h)
  · intro data off hoff codec rest hv
    unfold read_v2_index
    rw [if_neg hoff, hv]
    have hall : ∀ c : Nat, (match c with
      | 0x0400 => (Except.ok (some ({} : CarV2Index)) : Except CarError (Option CarV2Index))
      | 0x0401 => .ok (some {})
      | _ => .ok (some {})) = .ok (some {}) := by
      intro c
      split <;> rfl
    exact hall codec

/-- Witness for C7 at concrete inputs: a two-byte stream whose byte at
offset 1 is the unrecognized selector `0x63` still yields a present index,
and the decoded fixture-style V2 archive below has a nonzero `index_offset`
with `index = Some`. -/
theorem c7_index_sentinel_witness :
    read_v2_index [0, 99] 1 = .ok (some {}) :=
  c7_index_sentinel.2 [0, 99] 1 (by decide) 99 [] rfl

/-- Evaluation of `read_header` once the envelope is framed and decoded:
the result is fully determined by the integer `version` field. -/
theorem read_header_version {dec : List Nat → Except Unit Ipld}
    {data r1 hbuf r2 : List Nat} {hl : Nat} {m : Ipld} {n : Int}
    (h1 : varint_read_u64 data = .ok (hl, r1))
    (h2 : readExact r1 hl = .ok (hbuf, r2))
    (h3 : dec hbuf = .ok m)
    (h4 : m.get ("version") = .ok (.integer n)) :
    read_header dec data =
      if n = 1 then
        match parse_v1_header m with
        | .error e => .error e
        | .ok h => .ok (.v1 h, r2)
      else if n = 2 then
        match readExact r2 40 with
        | .error e => .error e
        | .ok (v2_header_buf, r3) =>
          match parse_v2_header v2_header_buf with
          | .error e => .error e
          | .ok h => .ok (.v2 h, r3)
      else .error (.unsupportedVersion (n % 256).toNat) := by
  unfold read_header
  rw [h1]
  simp only []
  rw [h2]
  simp only []
  rw [h3]
  simp only []
  rw [h4]

/-- A header failure makes the top-level decode fail with that error. -/
theorem read_bytes_header_err {dec : List Nat → Except Unit Ipld} {ext : ExtCaps}
    {fuel : Nat} {data : List Nat} {e : CarError}
    (hhdr : read_header dec data = .error e) :
    ContentArchive.read_bytes dec ext (fuel + 1) data = some (.error e) := by
  rw [ContentArchive.read_bytes, hhdr]

/-- The V1 path of `ContentArchive::read_bytes`: after a version-1 header,
the result is the block-stream decode of the remaining stream. -/
theorem read_bytes_v1_step {dec : List Nat → Except Unit Ipld} {ext : ExtCaps}
    {fuel : Nat} {data rest : List Nat} {h1 : CarHeaderV1}
    (hhdr : read_header dec data = .ok (.v1 h1, rest)) :
    ContentArchive.read_bytes dec ext (fuel + 1) data =
      match read_car_v1_data ext rest with
      | .error e => some (.error e)
      | .ok blocks => some (.ok (.v1 { header := h1, blocks := blocks })) := by
  rw [ContentArchive.read_bytes, hhdr]

/-- The V2 path of `ContentArchive::read_bytes` when the data window is
available: decode the window recursively, require a V1 result, then read
the index from the original stream. -/
theorem read_bytes_v2_step {dec : List Nat → Except Unit Ipld} {ext : ExtCaps}
    {fuel : Nat} {data rest : List Nat} {h2 : CarHeaderV2}
    (hhdr : read_header dec data = .ok (.v2 h2, rest))
    (hsz : h2.data_size ≤ (data.drop h2.data_offset).length) :
    ContentArchive.read_bytes dec ext (fuel + 1) data =
      match ContentArchive.read_bytes dec ext fuel
          ((data.drop h2.data_offset).take h2.data_size) with
      | none => none
      | some (.error e) => some (.error e)
      | some (.ok inner) =>
        match CarV1.try_from inner with
        | .error e => some (.error e)
        | .ok car1 =>
          match read_v2_index data h2.index_offset with
          | .error e => some (.error e)
          | .ok index =>
            some (.ok (.v2 { header := h2, car_v1 := car1, index := index })) := by
  rw [ContentArchive.read_bytes, hhdr]
  simp only []
  rw [if_pos hsz]

/-- The V2 path of `ContentArchive::read_bytes` when fewer than `data_size`
bytes remain after `data_offset`: filling the window buffer fails with the
I/O (truncation) error. -/
theorem read_bytes_v2_short {dec : List Nat → Except Unit Ipld} {ext : ExtCaps}
    {fuel : Nat} {data rest : List Nat} {h2 : CarHeaderV2}
    (hhdr : read_header dec data = .ok (.v2 h2, rest))
    (hsz : ¬ h2.data_size ≤ (data.drop h2.data_offset).length) :
    ContentArchive.read_bytes dec ext (fuel + 1) data = some (.error .io) := by
  rw [ContentArchive.read_bytes, hhdr]
  simp only []
  rw [if_neg hsz]

/-- The envelope of a stream declares version `n`: its framed header record
decodes (through the external map decoder) to a map whose `version` field
is the integer `n`. -/
def DeclaresVersion (dec : List Nat → Except Unit Ipld) (data : List Nat) (n : Int) : Prop :=
  ∃ (hl : Nat) (r1 hbuf r2 : List Nat) (m : Ipld),
    varint_read_u64 data = .ok (hl, r1)
    ∧ readExact r1 hl = .ok (hbuf, r2)
    ∧ dec hbuf = .ok m
    ∧ m.get ("version") = .ok (.integer n)

/-- C4 (amended): an envelope declaring a version `n ∉ {1, 2}` makes the
top-level decode fail with `UnsupportedVersion` carrying `n` truncated to
its low 8 bits by the `as u8` cast — `n` itself only when `0 ≤ n < 256`;
and the dispatch is exclusive: a version-1 envelope never produces a `V2`
result and a version-2 envelope never produces a `V1` result. -/
theorem c4_version_dispatch (dec : List Nat → Except Unit Ipld) (ext : ExtCaps)
    (fuel : Nat) (data : List Nat) (n : Int)
    (hdecl : DeclaresVersion dec data n) :
    (n ≠ 1 → n ≠ 2 → ContentArchive.read_bytes dec ext (fuel + 1) data
        = some (.error (.unsupportedVersion (n % 256).toNat)))
    ∧ (n = 1 → ∀ car : CarV2,
        ContentArchive.read_bytes dec ext (fuel + 1) data ≠ some (.ok (.v2 car)))
    ∧ (n = 2 → ∀ car : CarV1,
        ContentArchive.read_bytes dec ext (fuel + 1) data ≠ some (.ok (.v1 car))) := by
  obtain ⟨hl, r1, hbuf, r2, m, h1, h2, h3, h4⟩ := hdecl
  have hh := read_header_version h1 h2 h3 h4
  refine ⟨?_, ?_, ?_⟩
  · intro hn1 hn2
    rw [if_neg hn1, if_neg hn2] at hh
    exact read_bytes_header_err hh
  · intro hn car
    subst hn
    rw [if_pos rfl] at hh
    cases hp : parse_v1_header m with
    | error e =>
      rw [hp] at hh
      simp only [] at hh
      rw [read_bytes_header_err hh]
      simp
    | ok h =>
      rw [hp] at hh
      simp only [] at hh
      rw [read_bytes_v1_step hh]
      cases read_car_v1_data ext r2 <;> simp
  · intro hn car
    subst hn
    rw [if_neg (by norm_num), if_pos rfl] at hh
    cases he40 : readExact r2 40 with
    | error e =>
      rw [he40] at hh
      simp only [] at hh
      rw [read_bytes_header_err hh]
      simp
    | ok p =>
      obtain ⟨buf, r3⟩ := p
      rw [he40] at hh
      simp only [] at hh
      cases hph : parse_v2_header buf with
      | error e =>
        rw [hph] at hh
        simp only [] at hh
        rw [read_bytes_header_err hh]
        simp
      | ok hdr =>
        rw [hph] at hh
        simp only [] at hh
        by_cases hsz : hdr.data_size ≤ (data.drop hdr.data_offset).length
        · rw [read_bytes_v2_step hh hsz]
          cases hrb : ContentArchive.read_bytes dec ext fuel
              ((data.drop hdr.data_offset).take hdr.data_size) with
          | none => simp
          | some res =>
            cases res with
            | error e => simp
            | ok inner =>
              cases ht : CarV1.try_from inner with
              | error e => simp [ht]
              | ok car1 =>
                cases hix : read_v2_index data hdr.index_offset with
                | error e => simp [ht, hix]
                | ok idx => simp [ht, hix]
        · rw [read_bytes_v2_short hh hsz]
          simp

/-- Witness for C4 at a concrete input: the toy envelope `[1, 3]` declares
version 3, and the top-level decode fails with `UnsupportedVersion(3)`. -/
theorem c4_version_dispatch_witness :
    ContentArchive.read_bytes toyDec toyExt 1 [1, 3]
      = some (.error (.unsupportedVersion 3)) :=
  (c4_version_dispatch toyDec toyExt 0 [1, 3] 3
      ⟨1, [3], [3], [], .map [("version", .integer 3), ("roots", .list [])],
        rfl, rfl, rfl, rfl⟩).1
    (by decide) (by decide)

/-- Counterexample for C4 as stated: the claim says `UnsupportedVersion`
carries the declared version `n` for every `n ∉ {1, 2}` "including n
outside the 0..256 range", but the envelope `[2, 255, 2]` (declaring
version 257 under the toy map decoder) fails with `UnsupportedVersion(1)` —
the `as u8` cast wraps 257 to 1 — not `UnsupportedVersion(257)`. -/
theorem c4_version_cast_counterexample :
    ContentArchive.read_bytes toyDec toyExt 1 [2, 255, 2]
      = some (.error (.unsupportedVersion 1))
    ∧ ContentArchive.read_bytes toyDec toyExt 1 [2, 255, 2]
      ≠ some (.error (.unsupportedVersion 257)) := by
  constructor
  · rfl
  · intro h
    rw [show ContentArchive.read_bytes toyDec toyExt 1 [2, 255, 2]
        = some (.error (.unsupportedVersion 1)) from rfl] at h
    simp at h

/-- C6: for a version-2 envelope the decoder reads exactly the next 40
bytes and decodes bytes [0,16) as the characteristics bit-field and bytes
[16,24), [24,32), [32,40) as `data_offset`, `data_size`, `index_offset`,
each a little-endian unsigned 64-bit integer; with fewer than 40 bytes
available the decode fails with the truncation (I/O) error. -/
theorem c6_v2_fixed_header (dec : List Nat → Except Unit Ipld)
    (data r1 hbuf r2 : List Nat) (hl : Nat) (m : Ipld)
    (h1 : varint_read_u64 data = .ok (hl, r1))
    (h2 : readExact r1 hl = .ok (hbuf, r2))
    (h3 : dec hbuf = .ok m)
    (h4 : m.get ("version") = .ok (.integer 2)) :
    (40 ≤ r2.length →
      read_header dec data = .ok (.v2
        { characteristics := r2.take 16
          data_offset := read_u64_le ((r2.drop 16).take 8)
          data_size := read_u64_le ((r2.drop 24).take 8)
          index_offset := read_u64_le ((r2.drop 32).take 8) }, r2.drop 40))
    ∧ (r2.length < 40 → read_header dec data = .error .io) := by
  have hh := read_header_version h1 h2 h3 h4
  rw [if_neg (by norm_num), if_pos rfl] at hh
  constructor
  · intro h40
    rw [readExact, if_pos h40] at hh
    simp only [] at hh
    rw [parse_v2_header] at hh
    simp only [] at hh
    rw [hh]
    simp [List.take_take, List.drop_take]
  · intro h40
    rw [readExact, if_neg (by omega)] at hh
    simp only [] at hh
    exact hh

/-- Witness for C6 at a concrete input: a version-2 toy envelope followed
by exactly 40 zero bytes parses to the all-zero fixed header. -/
theorem c6_v2_fixed_header_witness :
    read_header toyDec (1 :: 2 :: List.replicate 40 0)
      = .ok (.v2
        { characteristics := (List.replicate 40 (0 : Nat)).take 16
          data_offset := read_u64_le (((List.replicate 40 (0 : Nat)).drop 16).take 8)
          data_size := read_u64_le (((List.replicate 40 (0 : Nat)).drop 24).take 8)
          index_offset := read_u64_le (((List.replicate 40 (0 : Nat)).drop 32).take 8) },
        (List.replicate 40 (0 : Nat)).drop 40) :=
  (c6_v2_fixed_header toyDec (1 :: 2 :: List.replicate 40 0)
      (2 :: List.replicate 40 0) [2] (List.replicate 40 0) 1
      (.map [("version", .integer 2), ("roots", .list [])])
      rfl rfl rfl rfl).1 (by simp)

/-- An envelope declaring a version other than 1 and 2 makes the top-level
decode fail with `UnsupportedVersion` of the 8-bit-truncated version. -/
theorem read_bytes_unsupported {dec : List Nat → Except Unit Ipld} {ext : ExtCaps}
    {fuel : Nat} {data : List Nat} {n : Int}
    (hdecl : DeclaresVersion dec data n) (hn1 : n ≠ 1) (hn2 : n ≠ 2) :
    ContentArchive.read_bytes dec ext (fuel + 1) data
      = some (.error (.unsupportedVersion (n % 256).toNat)) := by
  obtain ⟨hl, r1, hbuf, r2, m, h1, h2, h3, h4⟩ := hdecl
  have hh := read_header_version h1 h2 h3 h4
  rw [if_neg hn1, if_neg hn2] at hh
  exact read_bytes_header_err hh

/-- C5 (amended): inside a Version 2 wrapper, a payload window that itself
decodes to a V2 archive makes the top-level decode fail with
`InvalidFormat`; but a window whose envelope declares an unsupported
version `n ∉ {1, 2}` makes the top-level decode fail with the propagated
`UnsupportedVersion(n as u8)` of the nested decode, not `InvalidFormat`. -/
theorem c5_nested_payload_version (dec : List Nat → Except Unit Ipld) (ext : ExtCaps) :
    (∀ (fuel : Nat) (data rest : List Nat) (h2 : CarHeaderV2),
      read_header dec data = .ok (.v2 h2, rest) →
      h2.data_size ≤ (data.drop h2.data_offset).length →
      ∀ car : CarV2,
        ContentArchive.read_bytes dec ext fuel
            ((data.drop h2.data_offset).take h2.data_size) = some (.ok (.v2 car)) →
        ContentArchive.read_bytes dec ext (fuel + 1) data
          = some (.error .invalidFormat))
    ∧ (∀ (fuel : Nat) (data rest : List Nat) (h2 : CarHeaderV2) (n : Int),
      read_header dec data = .ok (.v2 h2, rest) →
      h2.data_size ≤ (data.drop h2.data_offset).length →
      DeclaresVersion dec ((data.drop h2.data_offset).take h2.data_size) n →
      n ≠ 1 → n ≠ 2 →
      ContentArchive.read_bytes dec ext (fuel + 2) data
        = some (.error (.unsupportedVersion (n % 256).toNat))) := by
  constructor
  · intro fuel data rest h2 hhdr hsz car hin
    rw [read_bytes_v2_step hhdr hsz, hin]
    rfl
  · intro fuel data rest h2 n hhdr hsz hdecl hn1 hn2
    rw [read_bytes_v2_step hhdr hsz, read_bytes_unsupported hdecl hn1 hn2]

/-- A concrete Version 2 archive whose 2-byte payload window at offset 42
is a toy envelope declaring version 3. -/
def nestedV3Example : List Nat :=
  [1, 2] ++ List.replicate 16 0
    ++ [42, 0, 0, 0, 0, 0, 0, 0] ++ [2, 0, 0, 0, 0, 0, 0, 0]
    ++ List.replicate 8 0 ++ [1, 3]

/-- Counterexample for C5 as stated: the claim says every payload window
declaring a version other than 1 — "including an unsupported version like
3" — makes the top-level decode fail with `InvalidFormat`; but on the
concrete V2 archive whose window declares version 3 the decode fails with
the propagated `UnsupportedVersion(3)`, not `InvalidFormat`. -/
theorem c5_nested_version3_counterexample :
    ContentArchive.read_bytes toyDec toyExt 2 nestedV3Example
      = some (.error (.unsupportedVersion 3))
    ∧ ContentArchive.read_bytes toyDec toyExt 2 nestedV3Example
      ≠ some (.error .invalidFormat) := by
  constructor
  · rfl
  · intro h
    rw [show ContentArchive.read_bytes toyDec toyExt 2 nestedV3Example
        = some (.error (.unsupportedVersion 3)) from rfl] at h
    simp at h

/-- Witness for C5 (amended) at the same concrete input, through the
theorem: the nested version-3 window makes the decode fail with
`UnsupportedVersion(3)`. -/
theorem c5_nested_payload_version_witness :
    ContentArchive.read_bytes toyDec toyExt 2 nestedV3Example
      = some (.error (.unsupportedVersion 3)) :=
  (c5_nested_payload_version toyDec toyExt).2 0 nestedV3Example [1, 3]
    { characteristics := List.replicate 16 0
      data_offset := 42, data_size := 2, index_offset := 0 }
    3 rfl (by decide)
    ⟨1, [3], [3], [], .map [("version", .integer 3), ("roots", .list [])],
      rfl, rfl, rfl, rfl⟩
    (by decide) (by decide)

/-- The block of the toy record `[5]`: identifier parsed from its single
byte, empty payload. -/
def toyBlock : Block :=
  { cid := { hashAlg := 5, digest := [5] }, payload := [] }

/-- A successful monadic map over `Option` preserves the list length. -/
theorem mapM_option_length {α β : Type} (f : α → Option β) :
    ∀ (xs : List α) (ys : List β), xs.mapM f = some ys → ys.length = xs.length := by
  intro xs
  induction xs with
  | nil =>
    intro ys h
    simp only [List.mapM_nil, Option.pure_def, Option.some.injEq] at h
    simp [← h]
  | cons x xs ih =>
    intro ys h
    cases hf : f x with
    | none => rw [List.mapM_cons, hf] at h; simp at h
    | some y =>
      cases hm : xs.mapM f with
      | none => rw [List.mapM_cons, hf, hm] at h; simp at h
      | some zs =>
        rw [List.mapM_cons, hf, hm] at h
        simp at h
        rw [← h]
        simp [ih zs hm]

/-- `read_car_v1_data` over exactly a sequence of well-formed framed
records succeeds with exactly their blocks. -/
theorem read_car_v1_data_encodeBody (ext : ExtCaps)
    (recs : List (List Nat)) (blocks : List Block)
    (hwf : ∀ rec ∈ recs, WFRecord ext rec)
    (hblocks : recs.mapM (blockOfRecord ext) = some blocks) :
    read_car_v1_data ext (encodeBody recs) = .ok blocks := by
  have happ := read_car_v1_data_append ext recs blocks [] hwf hblocks
  rw [List.append_nil] at happ
  rw [happ, read_car_v1_data_stop ext (rfl : varint_read_u64 [] = .error .eof)]
  simp [Except.map]

/-- C9: a Version 1 stream — an envelope declaring version 1, followed by
`k` well-formed records (valid length prefix, parseable identifier, payload
hashing to the identifier's digest) — decodes successfully to exactly `k`
blocks in the physical order of the records. -/
theorem c9_well_formed_records_decode (dec : List Nat → Except Unit Ipld)
    (ext : ExtCaps) (fuel : Nat) (data rest : List Nat) (hdr : CarHeaderV1)
    (recs : List (List Nat)) (blocks : List Block)
    (hhdr : read_header dec data = .ok (.v1 hdr, rest))
    (hrest : rest = encodeBody recs)
    (hwf : ∀ rec ∈ recs, WFRecord ext rec)
    (hblocks : recs.mapM (blockOfRecord ext) = some blocks) :
    ContentArchive.read_bytes dec ext (fuel + 1) data
      = some (.ok (.v1 { header := hdr, blocks := blocks }))
    ∧ blocks.length = recs.length := by
  subst hrest
  constructor
  · rw [read_bytes_v1_step hhdr, read_car_v1_data_encodeBody ext recs blocks hwf hblocks]
  · exact mapM_option_length (blockOfRecord ext) recs blocks hblocks

/-- Witness for C9 at a concrete input: the toy Version 1 stream `[1, 1]`
(envelope declaring version 1, empty roots) followed by the single framed
record `[1, 5]` decodes to exactly one block. -/
theorem c9_well_formed_records_decode_witness :
    ContentArchive.read_bytes toyDec toyExt 1 [1, 1, 1, 5]
      = some (.ok (.v1 { header := { roots := [] }, blocks := [toyBlock] }))
    ∧ ([toyBlock] : List Block).length = ([[5]] : List (List Nat)).length :=
  c9_well_formed_records_decode toyDec toyExt 0 [1, 1, 1, 5] [1, 5] { roots := [] }
    [[5]] [toyBlock]
    rfl
    (by simp [encodeBody, encodeRecord, varintEncode])
    (by intro rec hrec; rw [List.mem_singleton] at hrec; subst hrec
        exact ⟨by norm_num, rfl⟩)
    rfl

/-- C8: a Version 1 stream with zero bytes remaining after its last
complete record decodes successfully with no error, while a stream ending
mid-record — a complete length prefix promising `n` bytes followed by fewer
than `n` payload bytes — fails with the truncation (I/O) error. -/
theorem c8_clean_end_vs_truncation (ext : ExtCaps)
    (recs : List (List Nat)) (blocks : List Block) (n : Nat) (extra : List Nat)
    (hwf : ∀ rec ∈ recs, WFRecord ext rec)
    (hblocks : recs.mapM (blockOfRecord ext) = some blocks)
    (hn : n < 2 ^ 64) (hshort : extra.length < n) :
    read_car_v1_data ext (encodeBody recs) = .ok blocks
    ∧ read_car_v1_data ext (encodeBody recs ++ (varintEncode n ++ extra))
        = .error .io := by
  constructor
  · exact read_car_v1_data_encodeBody ext recs blocks hwf hblocks
  · rw [read_car_v1_data_append ext recs blocks _ hwf hblocks]
    have hv : varint_read_u64 (varintEncode n ++ extra) = .ok (n, extra) :=
      varint_read_encode extra hn
    have he : readExact extra n = .error .io := by
      rw [readExact, if_neg (by omega)]
    rw [read_car_v1_data_truncated ext hv he]
    rfl

/-- Witness for C8 at a concrete input: the single-record body decodes
cleanly, and appending a length prefix promising 3 bytes followed by only
one byte makes the decode fail with the truncation error. -/
theorem c8_clean_end_vs_truncation_witness :
    read_car_v1_data toyExt (encodeBody [[5]]) = .ok [toyBlock]
    ∧ read_car_v1_data toyExt (encodeBody [[5]] ++ (varintEncode 3 ++ [6]))
        = .error .io :=
  c8_clean_end_vs_truncation toyExt [[5]] [toyBlock] 3 [6]
    (by intro rec hrec; rw [List.mem_singleton] at hrec; subst hrec
        exact ⟨by norm_num, rfl⟩)
    rfl (by norm_num) (by norm_num)

/-- Inversion of a successful block construction: the payload hashed to the
identifier's digest and the block holds exactly that pair. -/
theorem Block.new_ok_inv {ext : ExtCaps} {cid : Cid} {payload : List Nat} {b : Block}
    (h : Block.new ext cid payload = .ok b) :
    ext.hash cid.hashAlg payload = cid.digest
      ∧ b = { cid := cid, payload := payload } := by
  unfold Block.new at h
  by_cases hc : ext.hash cid.hashAlg payload = cid.digest
  · rw [if_pos hc] at h
    cases h
    exact ⟨hc, rfl⟩
  · rw [if_neg hc] at h
    cases h

/-- A payload whose hash does not match the identifier makes block
construction fail with the content-mismatch error — never succeed. -/
theorem Block.new_mismatch {ext : ExtCaps} {cid : Cid} {payload : List Nat}
    (h : ext.hash cid.hashAlg payload ≠ cid.digest) :
    Block.new ext cid payload = .error .contentMismatch := by
  unfold Block.new
  rw [if_neg h]

/-- Only the `V1` variant converts to a `CarV1`. -/
theorem CarV1.try_from_ok {inner : ContentArchive} {car1 : CarV1}
    (h : CarV1.try_from inner = .ok car1) : inner = .v1 car1 := by
  cases inner with
  | v1 c =>
    unfold CarV1.try_from at h
    cases h
    rfl
  | v2 c =>
    unfold CarV1.try_from at h
    cases h

/-- Every block produced by the block-stream loop passed the `Block::new`
validation gate, so its payload hashes to its identifier's digest. -/
theorem read_car_v1_data_digest_invariant (ext : ExtCaps) :
    ∀ (N : Nat) (r : List Nat) (blocks : List Block), r.length ≤ N →
      read_car_v1_data ext r = .ok blocks →
      ∀ b ∈ blocks, ext.hash b.cid.hashAlg b.payload = b.cid.digest := by
  intro N
  induction N with
  | zero =>
    intro r blocks hr h b hb
    have hnil : r = [] := List.length_eq_zero.mp (Nat.le_zero.mp hr)
    subst hnil
    rw [read_car_v1_data_stop ext (rfl : varint_read_u64 [] = .error .eof)] at h
    cases h
    simp at hb
  | succ N ih =>
    intro r blocks hr h b hb
    cases hv : varint_read_u64 r with
    | error e =>
      rw [read_car_v1_data_stop ext hv] at h
      cases h
      simp at hb
    | ok p =>
      obtain ⟨length, r1⟩ := p
      cases he : readExact r1 length with
      | error e => rw [read_car_v1_data_truncated ext hv he] at h; cases h
      | ok q =>
        obtain ⟨buf, r2⟩ := q
        cases hc : ext.readCid buf with
        | none => rw [read_car_v1_data_cidError ext hv he hc] at h; cases h
        | some cp =>
          obtain ⟨cid, pos⟩ := cp
          cases hbn : Block.new ext cid (buf.drop pos) with
          | error e => rw [read_car_v1_data_blockError ext hv he hc hbn] at h; cases h
          | ok blk =>
            rw [read_car_v1_data_cons ext hv he hc hbn] at h
            cases hrec : read_car_v1_data ext r2 with
            | error e => rw [hrec] at h; cases h
            | ok rest =>
              rw [hrec] at h
              simp only [Except.map, Except.ok.injEq] at h
              subst h
              rcases List.mem_cons.mp hb with hbeq | hbmem
              · subst hbeq
                obtain ⟨hhash, hbv⟩ := Block.new_ok_inv hbn
                rw [hbv]
                exact hhash
              · have h1 : r1.length < r.length := varintGo_length_lt r 0 0 length r1 hv
                have h2 := readExact_ok he
                have hr2 : r2.length ≤ N := by
                  have hle : r2.length ≤ r1.length := by rw [h2.2.2]; simp
                  omega
                exact ih r2 rest hr2 hrec b hbmem

/-- Every block of a successfully decoded archive — the V1 path and the
embedded V1 of a V2 archive alike — satisfies the digest invariant. -/
theorem read_bytes_digest_invariant (dec : List Nat → Except Unit Ipld) (ext : ExtCaps) :
    ∀ (fuel : Nat) (data : List Nat) (ar : ContentArchive),
      ContentArchive.read_bytes dec ext fuel data = some (.ok ar) →
      ∀ b ∈ ar.blocks, ext.hash b.cid.hashAlg b.payload = b.cid.digest := by
  intro fuel
  induction fuel with
  | zero => intro data ar h; simp [ContentArchive.read_bytes] at h
  | succ fuel ih =>
    intro data ar h
    cases hh : read_header dec data with
    | error e =>
      rw [@read_bytes_header_err _ ext fuel _ _ hh] at h
      simp at h
    | ok p =>
      obtain ⟨hd, rest⟩ := p
      cases hd with
      | v1 h1 =>
        rw [read_bytes_v1_step hh] at h
        cases hb : read_car_v1_data ext rest with
        | error e => rw [hb] at h; simp at h
        | ok blocks =>
          rw [hb] at h
          simp only [Option.some.injEq, Except.ok.injEq] at h
          subst h
          intro b hbm
          simp only [ContentArchive.blocks] at hbm
          exact read_car_v1_data_digest_invariant ext rest.length rest blocks
            le_rfl hb b hbm
      | v2 h2 =>
        by_cases hsz : h2.data_size ≤ (data.drop h2.data_offset).length
        · rw [read_bytes_v2_step hh hsz] at h
          cases hin : ContentArchive.read_bytes dec ext fuel
              ((data.drop h2.data_offset).take h2.data_size) with
          | none => rw [hin] at h; simp at h
          | some res =>
            rw [hin] at h
            cases res with
            | error e => simp at h
            | ok inner =>
              simp only [] at h
              cases ht : CarV1.try_from inner with
              | error e => rw [ht] at h; simp at h
              | ok car1 =>
                rw [ht] at h
                simp only [] at h
                cases hix : read_v2_index data h2.index_offset with
                | error e => rw [hix] at h; simp at h
                | ok idx =>
                  rw [hix] at h
                  simp only [Option.some.injEq, Except.ok.injEq] at h
                  subst h
                  intro b hbm
                  simp only [ContentArchive.blocks] at hbm
                  have hinner : inner = .v1 car1 := CarV1.try_from_ok ht
                  subst hinner
                  exact ih _ _ hin b hbm
        · rw [read_bytes_v2_short hh hsz] at h
          simp at h

/-- C1: for every block in the sequence returned by a successful decode —
on the V1 path and for the embedded V1 of a V2 archive — hashing the
block's payload with the algorithm named in its identifier yields exactly
the digest embedded in the identifier; and constructing a block from a
payload whose hash does not match its identifier fails with the
content-mismatch error, never silently succeeding. -/
theorem c1_digest_invariant (dec : List Nat → Except Unit Ipld) (ext : ExtCaps)
    (fuel : Nat) (data : List Nat) (ar : ContentArchive)
    (h : ContentArchive.read_bytes dec ext fuel data = some (.ok ar)) :
    (∀ b ∈ ar.blocks, ext.hash b.cid.hashAlg b.payload = b.cid.digest)
    ∧ ∀ (cid : Cid) (payload : List Nat),
        ext.hash cid.hashAlg payload ≠ cid.digest →
        Block.new ext cid payload = .error .contentMismatch :=
  ⟨read_bytes_digest_invariant dec ext fuel data ar h,
    fun _ _ hne => Block.new_mismatch hne⟩

/-- Witness for C1 at a concrete input: the toy Version 1 archive with one
record decodes successfully, its single block satisfies the digest
invariant, and a mismatching construction fails. -/
theorem c1_digest_invariant_witness :
    (∀ b ∈ (ContentArchive.v1 { header := { roots := [] }, blocks := [toyBlock] }).blocks,
      toyExt.hash b.cid.hashAlg b.payload = b.cid.digest)
    ∧ ∀ (cid : Cid) (payload : List Nat),
        toyExt.hash cid.hashAlg payload ≠ cid.digest →
        Block.new toyExt cid payload = .error .contentMismatch :=
  c1_digest_invariant toyDec toyExt 1 [1, 1, 1, 5]
    (.v1 { header := { roots := [] }, blocks := [toyBlock] })
    (by
      have hhdr : read_header toyDec [1, 1, 1, 5]
          = .ok (.v1 { roots := [] }, [1, 5]) := rfl
      have hv : varint_read_u64 [1, 5] = .ok (1, [5]) := rfl
      have he : readExact [5] 1 = .ok ([5], []) := rfl
      have hc : toyExt.readCid [5] = some ({ hashAlg := 5, digest := [5] }, 1) := rfl
      have hb : Block.new toyExt { hashAlg := 5, digest := [5] } [] = .ok toyBlock := rfl
      have hv2 : varint_read_u64 [] = .error .eof := rfl
      have hblocks : read_car_v1_data toyExt [1, 5] = .ok [toyBlock] := by
        rw [read_car_v1_data_cons toyExt hv he hc hb,
          read_car_v1_data_stop toyExt hv2]
        rfl
      rw [read_bytes_v1_step hhdr, hblocks])
